import Mathlib

/-!
Verification of the `epub_maker` pipeline (`convert.py`).

The Python code is shallowly embedded here:

* the regex substitutions of `fix_latex_math` become explicit left-to-right
  scanning functions over `List Char` (`subM` applies a matcher at every
  position, exactly like `re.sub` applies a pattern);
* `convert_pdf_to_markdown`, `convert_markdown_to_epub`, the orchestrator
  dedup loop and `get_hardware_config` become pure functions parameterised
  by oracles for the external processes / filesystem / hardware probe.

Machine floats appear only in `get_hardware_config`; memory sizes are exact
powers of two there, so rational arithmetic models the float computation.
-/

namespace EpubMaker

/-- Python `\s` on the ASCII range: the whitespace characters recognised by
`re` and by `str.strip`. -/
def isPySpace (c : Char) : Bool :=
  c = ' ' || c = '\t' || c = '\n' || c = '\r' || c = '\x0b' || c = '\x0c'

/-- The regex character class `[a-zA-Z0-9]`. -/
def pyAlnum (c : Char) : Bool :=
  ('a' ≤ c && c ≤ 'z') || ('A' ≤ c && c ≤ 'Z') || ('0' ≤ c && c ≤ '9')

/-- Strip a literal pattern from the front of a list; `some rest` on success. -/
def stripPfx : List Char → List Char → Option (List Char)
  | [], l => some l
  | _ :: _, [] => none
  | p :: ps, c :: cs => if c = p then stripPfx ps cs else none

/-- Greedy run of characters satisfying `p` (the pair take/drop), i.e. the
action of a greedy `X*` on a class `X` that cannot overlap what follows. -/
def spanP (p : Char → Bool) : List Char → List Char × List Char
  | [] => ([], [])
  | c :: cs =>
    if p c then
      let r := spanP p cs
      (c :: r.1, r.2)
    else ([], c :: cs)

/-- A matcher tries a regex pattern anchored at the head of the list and on
success returns the replacement text together with the rest of the input
after the matched span. -/
def Matcher : Type := List Char → Option (List Char × List Char)

/-- `re.sub` semantics: scan left to right, at each position try the pattern;
on a match emit the replacement and continue after the matched span, else
copy one character.  `fuel` bounds the recursion; every pattern used here
consumes at least one character, so `fuel = length` is always enough. -/
def subMAux (m : Matcher) : Nat → List Char → List Char
  | _, [] => []
  | 0, l => l
  | fuel + 1, c :: cs =>
    match m (c :: cs) with
    | some (r, rest) => r ++ subMAux m fuel rest
    | none => c :: subMAux m fuel cs

/-- One `re.sub` pass of matcher `m` over a character list. -/
def subM (m : Matcher) (l : List Char) : List Char := subMAux m l.length l

/-- `str.replace` / a purely literal regex: pattern and fixed replacement. -/
def matchLit (pat repl : List Char) : Matcher := fun l =>
  match stripPfx pat l with
  | some rest => some (repl, rest)
  | none => none

/-- The replacement text `\mathrm{` shared by the two `\rm` rules. -/
def mathrmOpen : List Char := ['\\', 'm', 'a', 't', 'h', 'r', 'm', '\x7b']

/-- Rule 1 of `fix_latex_math`: `re.sub(r'\\rm\s*\{([^}]+)\}', r'\\mathrm{\1}', ...)`. -/
def tryRmBraced : Matcher := fun l =>
  match stripPfx ['\\', 'r', 'm'] l with
  | none => none
  | some l1 =>
    let l2 := (spanP isPySpace l1).2
    match stripPfx ['\x7b'] l2 with
    | none => none
    | some l3 =>
      let g := spanP (fun c => !(c = '\x7d')) l3
      if g.1.isEmpty then none
      else
        match stripPfx ['\x7d'] g.2 with
        | some l4 => some (mathrmOpen ++ g.1 ++ ['\x7d'], l4)
        | none => none

/-- Rule 2 of `fix_latex_math`: `re.sub(r'\\rm\s*([a-zA-Z0-9]+)', r'\\mathrm{\1}', ...)`. -/
def tryRmBare : Matcher := fun l =>
  match stripPfx ['\\', 'r', 'm'] l with
  | none => none
  | some l1 =>
    let l2 := (spanP isPySpace l1).2
    let g := spanP pyAlnum l2
    if g.1.isEmpty then none else some (mathrmOpen ++ g.1 ++ ['\x7d'], g.2)

/-- The literal prefix `\begin{array}{` of the array rule's pattern. -/
def beginArr : List Char :=
  ['\\', 'b', 'e', 'g', 'i', 'n', '\x7b', 'a', 'r', 'r', 'a', 'y', '\x7d', '\x7b']

/-- The Python callback `fix_array`: given the matched group
(`\begin{array}{` followed by the column letters), append `}` when the
group contains `{` but no `}`, else return the match unchanged. -/
def fix_array (spec : List Char) : List Char :=
  if spec.contains '\x7b' && !(spec.contains '\x7d') then spec ++ ['\x7d'] else spec

/-- Rule 4 of `fix_latex_math`:
`re.sub(r'(\\begin\{array\}\{[c|l|r]+)', fix_array, ...)`. -/
def tryArray : Matcher := fun l =>
  match stripPfx beginArr l with
  | none => none
  | some l1 =>
    let g := spanP (fun c => c = 'c' || c = '|' || c = 'l' || c = 'r') l1
    if g.1.isEmpty then none else some (fix_array (beginArr ++ g.1), g.2)

/-- A code-pattern head of the form `name\s*post` (e.g. `printf\s*\(`,
`cout\s*<<`): literal name, greedy whitespace, literal tail.  Returns the
matched text and the rest. -/
def xCall (name post : List Char) : List Char → Option (List Char × List Char) :=
  fun l =>
    match stripPfx name l with
    | none => none
    | some l1 =>
      let w := spanP isPySpace l1
      match stripPfx post w.2 with
      | some l2 => some (name ++ w.1 ++ post, l2)
      | none => none

/-- A purely literal code-pattern head (`System\.out\.print`). -/
def xLit (name : List Char) : List Char → Option (List Char × List Char) :=
  fun l =>
    match stripPfx name l with
    | some rest => some (name, rest)
    | none => none

/-- The lazy `[^$]*?X` of the code-unwrapping pattern: starting after the
opening delimiter, try the code head `X` first at each position (lazy), and
otherwise consume one non-`$` character; fail on a `$` or at the end.
Returns (consumed prefix, text matched by `X`, rest). -/
def scanXAux (X : List Char → Option (List Char × List Char)) (acc : List Char) :
    List Char → Option (List Char × List Char × List Char)
  | [] => none
  | c :: cs =>
    match X (c :: cs) with
    | some (xt, after) => some (acc.reverse, xt, after)
    | none => if c = '$' then none else scanXAux X (c :: acc) cs

/-- The lazy `.*?\1\$` tail of the code-unwrapping pattern (DOTALL): consume
any characters up to the first occurrence of the closing delimiter.
Returns (consumed middle, rest after the delimiter). -/
def scanCloseAux (close : List Char) (acc : List Char) :
    List Char → Option (List Char × List Char)
  | [] => none
  | c :: cs =>
    match stripPfx close (c :: cs) with
    | some rest => some (acc.reverse, rest)
    | none => scanCloseAux close (c :: acc) cs

/-- Rule 5 of `fix_latex_math` for one code pattern `X`:
`re.sub(f'\\$(\\$?)([^$]*?{pattern}.*?)\\1\\$', r'\2', ..., flags=re.DOTALL)`.
The optional group `(\$?)` is greedy, so at `$$` the double-delimiter branch
is decided first; when it fails, the empty-group branch starts its content
at the second `$` and dies immediately on `[^$]`, so no alternative branch
remains, exactly as in the regex. -/
def tryCode (X : List Char → Option (List Char × List Char)) : Matcher := fun l =>
  match l with
  | '$' :: '$' :: r =>
    match scanXAux X [] r with
    | none => none
    | some (pre, xt, after) =>
      match scanCloseAux ['$', '$'] [] after with
      | none => none
      | some (mid, rest) => some (pre ++ xt ++ mid, rest)
  | '$' :: r =>
    match scanXAux X [] r with
    | none => none
    | some (pre, xt, after) =>
      match scanCloseAux ['$'] [] after with
      | none => none
      | some (mid, rest) => some (pre ++ xt ++ mid, rest)
  | _ => none

/-- Rule 6a: `re.sub(r'\\\\\s*\\\)', r' \\)', ...)` — two literal
backslashes, optional whitespace, then the closing `\)`. -/
def try6a : Matcher := fun l =>
  match stripPfx ['\\', '\\'] l with
  | none => none
  | some l1 =>
    match stripPfx ['\\', ')'] (spanP isPySpace l1).2 with
    | some rest => some ([' ', '\\', ')'], rest)
    | none => none

/-- Rule 6b: the `\]` form of rule 6a. -/
def try6b : Matcher := fun l =>
  match stripPfx ['\\', '\\'] l with
  | none => none
  | some l1 =>
    match stripPfx ['\\', ']'] (spanP isPySpace l1).2 with
    | some rest => some ([' ', '\\', ']'], rest)
    | none => none

/-- Rule 6c: `re.sub(r'(\\+)\s*\\\)', r' \)', ...)`.  The greedy `(\\+)`
takes the whole backslash run; when no whitespace follows, the regex
backtracks one backslash so it can serve as the `\` of `\)` (whitespace
characters can never satisfy the literal `\`, so no other backtracking
branch exists). -/
def try6c : Matcher := fun l =>
  let bs := spanP (fun c => c = '\\') l
  if bs.1.isEmpty then none
  else
    let ws := spanP isPySpace bs.2
    if ws.1.isEmpty then
      if 2 ≤ bs.1.length then
        match ws.2 with
        | ')' :: rest => some ([' ', '\\', ')'], rest)
        | _ => none
      else none
    else
      match stripPfx ['\\', ')'] ws.2 with
      | some rest => some ([' ', '\\', ')'], rest)
      | none => none

/-- Rule 6d: the `\]` form of rule 6c. -/
def try6d : Matcher := fun l =>
  let bs := spanP (fun c => c = '\\') l
  if bs.1.isEmpty then none
  else
    let ws := spanP isPySpace bs.2
    if ws.1.isEmpty then
      if 2 ≤ bs.1.length then
        match ws.2 with
        | ']' :: rest => some ([' ', '\\', ']'], rest)
        | _ => none
      else none
    else
      match stripPfx ['\\', ']'] ws.2 with
      | some rest => some ([' ', '\\', ']'], rest)
      | none => none

/-- The code-pattern heads of rule 5, in source order:
`printf\s*\(`, `fprintf\s*\(`, `cout\s*<<`, `System\.out\.print`,
`console\.log\s*\(`. -/
def xPrintf := xCall ['p', 'r', 'i', 'n', 't', 'f'] ['(']

def xFprintf := xCall ['f', 'p', 'r', 'i', 'n', 't', 'f'] ['(']

def xCout := xCall ['c', 'o', 'u', 't'] ['<', '<']

def xSysOut := xLit
  ['S', 'y', 's', 't', 'e', 'm', '.', 'o', 'u', 't', '.', 'p', 'r', 'i', 'n', 't']

def xConsoleLog := xCall
  ['c', 'o', 'n', 's', 'o', 'l', 'e', '.', 'l', 'o', 'g'] ['(']

/-- `fix_latex_math` from `convert.py`: the rules applied in source order. -/
def fix_latex_math (s : String) : String :=
  let c1 := subM tryRmBraced s.data
  let c2 := subM tryRmBare c1
  let c3 := subM (matchLit ['\\', 'r', 'm'] ['\\', 'm', 'a', 't', 'h', 'r', 'm']) c2
  let c4 := subM tryArray c3
  let c5 := subM (tryCode xPrintf) c4
  let c6 := subM (tryCode xFprintf) c5
  let c7 := subM (tryCode xCout) c6
  let c8 := subM (tryCode xSysOut) c7
  let c9 := subM (tryCode xConsoleLog) c8
  let d1 := subM try6a c9
  let d2 := subM try6b d1
  let d3 := subM try6c d2
  let d4 := subM try6d d3
  String.mk d4

/-- `content.replace("<br>", "<br/>")` from `convert_markdown_to_epub`. -/
def replaceBr (s : String) : String :=
  String.mk (subM (matchLit ['<', 'b', 'r', '>'] ['<', 'b', 'r', '/', '>']) s.data)

/-- The full Text Repair Pass as performed before compilation: `<br>`
normalisation followed by `fix_latex_math`. -/
def repairText (s : String) : String := fix_latex_math (replaceBr s)

example : fix_latex_math "$printf(y)$" = "printf(y)" := by decide

example : repairText "$a$printf($b$" = "$aprintf(b$" := by decide

example : repairText "$aprintf(b$" = "aprintf(b" := by decide

example : fix_latex_math "\\(x\\\\ \\)" = "\\(x \\)" := by decide

/-! ## Extraction Driver: `convert_pdf_to_markdown` -/

/-- Python `str.strip()` (ASCII whitespace from both ends). -/
def pyStrip (s : String) : String :=
  String.mk (((s.data.dropWhile isPySpace).reverse.dropWhile isPySpace).reverse)

/-- Outcome of one `subprocess.run(marker_single ...)` call: either the child
exits non-zero / is missing (`err`, caught by the `except` branches) or it
completes, leaving `resultFile` as the content of the expected staging file
`output_dir/<stem>/<stem>.md` (`none` = no file was produced there). -/
inductive MarkerOutcome where
  | err : MarkerOutcome
  | ok : Option String → MarkerOutcome

/-- The external extractor and staging filesystem, abstracted: `run b` is the
outcome of invoking marker with `--disable_ocr` present iff `b`; `fallback`
is the first hit of the recursive glob `**/<stem>.md` when the expected path
is missing. -/
structure MarkerEnv where
  run : Bool → MarkerOutcome
  fallback : Option String

/-- Where the returned Markdown file lives: the expected staging path
`stagingDir/<stem>/<stem>.md`, or a path found by the fallback glob. -/
inductive MdPath where
  | expected : MdPath
  | found : String → MdPath
deriving DecidableEq

/-- The final `if result_path.exists(): return result_path else glob...` of
`convert_pdf_to_markdown`.  Returns (returned path, content at the expected
staging path). -/
def markerFinish (env : MarkerEnv) (file : Option String) :
    Option MdPath × Option String :=
  match file with
  | some c => (some MdPath.expected, some c)
  | none =>
    match env.fallback with
    | some p => (some (MdPath.found p), none)
    | none => (none, none)

/-- `convert_pdf_to_markdown` from `convert.py`.  Returns the returned path,
the content at the expected staging path, and the trace of `disable_ocr`
flags of the marker invocations, in order. -/
def convert_pdf_to_markdown (env : MarkerEnv) (noOcr smartOcr : Bool) :
    Option MdPath × Option String × List Bool :=
  let effectiveNoOcr := if smartOcr then true else noOcr
  match env.run effectiveNoOcr with
  | MarkerOutcome.err => (none, none, [effectiveNoOcr])
  | MarkerOutcome.ok file1 =>
    if smartOcr && effectiveNoOcr then
      match file1 with
      | some content =>
        if (pyStrip content).length < 100 then
          -- low-quality output: retry with the original cmd (no disable_ocr)
          match env.run false with
          | MarkerOutcome.err => (none, none, [effectiveNoOcr, false])
          | MarkerOutcome.ok file2 =>
            let r := markerFinish env file2
            (r.1, r.2, [effectiveNoOcr, false])
        else
          let r := markerFinish env file1
          (r.1, r.2, [effectiveNoOcr])
      | none =>
        let r := markerFinish env none
        (r.1, r.2, [effectiveNoOcr])
    else
      let r := markerFinish env file1
      (r.1, r.2, [effectiveNoOcr])

/-! ## Compilation Driver: `convert_markdown_to_epub` -/

/-- The fallible external operations inside `convert_markdown_to_epub`:
whether `md_file.read_text`, `md_file.write_text` and
`pypandoc.convert_file` raise. -/
structure PandocEnv where
  readRaises : Bool
  writeRaises : Bool
  convertRaises : Bool

/-- Observable result of `convert_markdown_to_epub`: the returned flag, the
process working directory when the function returns, the staging file's
content on disk at the end, and the content pandoc read from disk
(`none` when pandoc was never invoked). -/
structure EpubOutcome where
  success : Bool
  finalCwd : String
  diskContent : String
  compilerInput : Option String
deriving DecidableEq

/-- `convert_markdown_to_epub` from `convert.py`.  `origCwd` is the working
directory on entry, `mdParent` the Markdown file's directory, `disk0` the
file's content on disk.  The source changes directory, then reads, repairs
and conditionally rewrites the file *outside* the inner `try/finally`, and
only wraps the pandoc call itself with the `finally: os.chdir(cwd)`; any
exception is caught by the outer `except` which returns `False`. -/
def convert_markdown_to_epub (env : PandocEnv) (origCwd mdParent disk0 : String) :
    EpubOutcome :=
  -- cwd = os.getcwd(); os.chdir(md_file.parent)
  let cwdNow := mdParent
  if env.readRaises then
    -- exception before the inner try/finally: outer except, cwd not restored
    { success := false, finalCwd := cwdNow, diskContent := disk0,
      compilerInput := none }
  else
    let content := replaceBr disk0
    let fixedContent := fix_latex_math content
    let proceed : String → EpubOutcome := fun disk =>
      -- inner try: pandoc reads the file from disk; finally: os.chdir(cwd)
      if env.convertRaises then
        { success := false, finalCwd := origCwd, diskContent := disk,
          compilerInput := some disk }
      else
        { success := true, finalCwd := origCwd, diskContent := disk,
          compilerInput := some disk }
    if fixedContent ≠ content then
      if env.writeRaises then
        -- write_text raises before the inner try/finally: cwd not restored
        { success := false, finalCwd := cwdNow, diskContent := disk0,
          compilerInput := none }
      else proceed fixedContent
    else proceed disk0

/-! ## Pipeline Orchestrator: input resolution, dedup, per-file step -/

/-- Whether the character list ends with the given suffix. -/
def endsWithL (suf l : List Char) : Bool :=
  (stripPfx suf.reverse l.reverse).isSome

/-- `main`'s directory case: `files = list(input_path.glob("*.pdf"))` — the
entries of the input directory whose names match `*.pdf`. -/
def resolveInputFiles (entries : List String) : List String :=
  entries.filter (fun s => endsWithL ['.', 'p', 'd', 'f'] s.data)

/-- `pdf.name[:-4] + ".epub"`. -/
def epubProbe (pdf : String) : String :=
  String.mk (pdf.data.take (pdf.data.length - 4) ++ ['.', 'e', 'p', 'u', 'b'])

/-- The dedup loop of `main`:
`for pdf in files: if pdf.name[:-4]+".epub" in files: files.remove(pdf)`.
CPython list iteration keeps an index that advances by one each step while
`remove` mutates the list in place; the fuel (initial length) bounds the
iteration count. -/
def dedupStep : Nat → Nat → List String → List String
  | 0, _, fs => fs
  | fuel + 1, i, fs =>
    if h : i < fs.length then
      let pdf := fs.get ⟨i, h⟩
      let fs' := if (epubProbe pdf) ∈ fs then fs.erase pdf else fs
      dedupStep fuel (i + 1) fs'
    else fs

/-- The dedup pass over the resolved candidate list. -/
def dedupFiles (fs : List String) : List String := dedupStep fs.length 0 fs

/-- The per-file Markdown resolution in `main`'s loop: with `--skip-existing`
check the expected staging path directly (`staged` = its content), otherwise
run the Extraction Driver.  Returns (markdown file to compile, content at
the expected staging path). -/
def mainStepMarkdown (env : MarkerEnv) (noOcr smartOcr skipExisting : Bool)
    (staged : Option String) : Option MdPath × Option String :=
  if skipExisting then
    match staged with
    | some c => (some MdPath.expected, some c)
    | none => (none, none)
  else
    let r := convert_pdf_to_markdown env noOcr smartOcr
    (r.1, r.2.1)

/-- A concrete extraction environment in which every marker run "succeeds"
but produces an empty staging file. -/
def emptyMdEnv : MarkerEnv := ⟨fun _ => MarkerOutcome.ok (some ""), none⟩

/-! ## Hardware Profiler: `get_hardware_config` -/

/-- The hardware readings `get_hardware_config` probes: `os.cpu_count()`
(`0` models `None`, since `cpu_cores or 1` treats both as falsy), torch
importability, `torch.cuda.is_available()`, and the per-device
`total_memory` in bytes. -/
structure HardwareInfo where
  cpuCount : Nat
  torchOk : Bool
  cudaOk : Bool
  gpuMemBytes : List Nat

/-- `get_hardware_config` from `convert.py`: CPU branch returns
`(cpu_count or 1, 1)`; GPU branch sums `total_memory / 1024**3` over the
devices, takes `int(total // 5)` clamped up to `1`, with batch size `8`.
The float arithmetic of the source is modelled exactly over `ℚ`. -/
def get_hardware_config (hw : HardwareInfo) : Nat × Nat :=
  let cpuCores := if hw.cpuCount = 0 then 1 else hw.cpuCount
  if hw.torchOk && hw.cudaOk then
    let totalVramGb : ℚ := (hw.gpuMemBytes.map (fun m : ℕ => (m : ℚ) / (1024 ^ 3))).sum
    let w0 : ℤ := Int.floor (totalVramGb / 5)
    let w : ℤ := if w0 < 1 then 1 else w0
    (w.toNat, 8)
  else (cpuCores, 1)

/-! ## Basic lemmas about the scanning machinery -/

theorem stripPfx_eq (p : List Char) :
    ∀ l r, stripPfx p l = some r → l = p ++ r := by
  induction p with
  | nil => intro l r h; simp [stripPfx] at h; simp [h]
  | cons a ps ih =>
    intro l r h
    cases l with
    | nil => simp [stripPfx] at h
    | cons c cs =>
      simp only [stripPfx] at h
      by_cases hc : c = a
      · subst hc
        simp at h
        simpa using ih cs r h
      · simp [hc] at h

theorem spanP_eq (p : Char → Bool) :
    ∀ l : List Char, (spanP p l).1 ++ (spanP p l).2 = l := by
  intro l
  induction l with
  | nil => simp [spanP]
  | cons c cs ih =>
    by_cases h : p c
    · simp [spanP, h, ih]
    · simp [spanP, h]

/-- The array-repair branch of `fix_array` is dead code: the matched group
always contains the `}` of `\begin{array}`, so `fix_array` returns the
match unchanged. -/
theorem fix_array_id (g : List Char) : fix_array (beginArr ++ g) = beginArr ++ g := by
  have hmem : '\x7d' ∈ beginArr ++ g := by simp [beginArr]
  have h : (beginArr ++ g).contains '\x7d' = true := List.elem_eq_true_of_mem hmem
  unfold fix_array
  rw [h]
  simp

theorem tryArray_id : ∀ l r rest, tryArray l = some (r, rest) → r ++ rest = l := by
  intro l r rest h
  unfold tryArray at h
  split at h
  · exact absurd h (by simp)
  next l1 hs =>
    simp only [] at h
    split at h
    · exact absurd h (by simp)
    next hg =>
      have h' := Option.some.inj h
      have h1 := congrArg Prod.fst h'
      have h2 := congrArg Prod.snd h'
      simp only [] at h1 h2
      rw [← h1, ← h2, fix_array_id, List.append_assoc, spanP_eq,
        ← stripPfx_eq _ _ _ hs]

/-- Rule 4 of `fix_latex_math` is the identity: the brace-appending branch
can never fire. -/
theorem subM_tryArray_id : ∀ fuel l, subMAux tryArray fuel l = l := by
  intro fuel
  induction fuel with
  | zero => intro l; cases l <;> simp [subMAux]
  | succ f ih =>
    intro l
    cases l with
    | nil => simp [subMAux]
    | cons c cs =>
      simp only [subMAux]
      cases h : tryArray (c :: cs) with
      | none => simp [ih cs]
      | some p =>
        obtain ⟨r, rest⟩ := p
        simp only [ih rest]
        exact tryArray_id _ _ _ h

/-! ## C1: idempotence of the Text Repair Pass -/

/-- C1: the Text Repair Pass (`<br>` normalisation followed by
`fix_latex_math`) is NOT idempotent.  On `$a$printf($b$` the code-unwrapping
rule turns the text into `$aprintf(b$`, which a second application unwraps
again to `aprintf(b`, so `repair(repair(x)) ≠ repair(x)`.  The spec requires
idempotence because re-runs repair already-repaired files; the code violates
it. -/
theorem repair_not_idempotent :
    repairText "$a$printf($b$" = "$aprintf(b$" ∧
    repairText (repairText "$a$printf($b$") = "aprintf(b" ∧
    repairText (repairText "$a$printf($b$") ≠ repairText "$a$printf($b$" := by
  refine ⟨by decide, by decide, by decide⟩

/-! ## C2: array-brace repair -/

/-- C2: `fix_latex_math` does NOT append the missing closing brace:
`\begin{array}{ccc` is returned unchanged, not turned into
`\begin{array}{ccc}`, because the matched group always contains the `}` of
`\begin{array}` so `fix_array`'s repair branch never fires (the array rule
is the identity on every input). -/
theorem array_brace_never_appended :
    fix_latex_math "\\begin\x7barray\x7d\x7bccc" = "\\begin\x7barray\x7d\x7bccc" ∧
    fix_latex_math "\\begin\x7barray\x7d\x7bccc" ≠ "\\begin\x7barray\x7d\x7bccc\x7d" ∧
    (∀ l : List Char, subM tryArray l = l) := by
  refine ⟨by decide, by decide, fun l => subM_tryArray_id _ l⟩

/-! ## C3: orchestrator deduplication -/

theorem endsWithL_pdf_head {x : String}
    (h : endsWithL ['.', 'p', 'd', 'f'] x.data = true) :
    x.data.reverse.head? = some 'f' := by
  unfold endsWithL at h
  cases hs : stripPfx (['.', 'p', 'd', 'f'].reverse) x.data.reverse with
  | none => rw [hs] at h; simp at h
  | some r =>
    have := stripPfx_eq _ _ _ hs
    rw [this]
    rfl

theorem epubProbe_head (pdf : String) :
    (epubProbe pdf).data.reverse.head? = some 'b' := by
  show ((pdf.data.take (pdf.data.length - 4) ++ ['.', 'e', 'p', 'u', 'b']).reverse).head?
      = some 'b'
  rw [List.reverse_append]
  rfl

theorem probe_not_mem (fs : List String)
    (hall : ∀ x ∈ fs, endsWithL ['.', 'p', 'd', 'f'] x.data = true)
    (pdf : String) : epubProbe pdf ∉ fs := by
  intro hmem
  have h1 := endsWithL_pdf_head (hall _ hmem)
  rw [epubProbe_head] at h1
  simp at h1

theorem dedupStep_id :
    ∀ fuel i fs, (∀ x ∈ fs, endsWithL ['.', 'p', 'd', 'f'] x.data = true) →
      dedupStep fuel i fs = fs := by
  intro fuel
  induction fuel with
  | zero => intro i fs _; rfl
  | succ f ih =>
    intro i fs hall
    unfold dedupStep
    split
    next h =>
      simp only []
      rw [if_neg (probe_not_mem fs hall _)]
      exact ih (i + 1) fs hall
    · rfl

/-- C3: the sibling-EPUB deduplication in `main` never skips anything: the
candidate list holds only `*.pdf` names while the probed name ends in
`.epub`, so the membership test is always false, the `remove` is
unreachable, and on the example directory `book.pdf` is still processed
even though `book.epub` sits beside it. -/
theorem dedup_never_skips :
    (∀ entries, dedupFiles (resolveInputFiles entries) = resolveInputFiles entries) ∧
    resolveInputFiles ["book.pdf", "book.epub"] = ["book.pdf"] ∧
    dedupFiles ["book.pdf"] = ["book.pdf"] := by
  refine ⟨fun entries => dedupStep_id _ _ _ ?_, by decide, by decide⟩
  intro x hx
  exact (List.mem_filter.mp hx).2

/-! ## C4: smart-OCR fallback -/

/-- C4: with `smart_ocr` set the first marker invocation always passes
`--disable_ocr` (regardless of `no_ocr`), and when the resulting file's
stripped content is shorter than 100 characters the extractor is re-invoked
with OCR enabled; the second result at the expected staging path is the one
returned. -/
theorem smart_ocr_fallback (env : MarkerEnv) (noOcr : Bool) (c c2 : String)
    (h1 : env.run true = MarkerOutcome.ok (some c))
    (h2 : (pyStrip c).length < 100)
    (h3 : env.run false = MarkerOutcome.ok (some c2)) :
    convert_pdf_to_markdown env noOcr true =
      (some MdPath.expected, some c2, [true, false]) := by
  simp [convert_pdf_to_markdown, h1, h2, h3, markerFinish]

theorem smart_ocr_fallback_witness :
    convert_pdf_to_markdown
        ⟨fun b => if b then MarkerOutcome.ok (some "short")
                  else MarkerOutcome.ok (some "recovered"), none⟩ false true =
      (some MdPath.expected, some "recovered", [true, false]) :=
  smart_ocr_fallback _ false "short" "recovered" rfl (by decide) rfl

/-! ## C5: working-directory restoration -/

/-- C5: the prior working directory is NOT restored on every exception.  The
read/repair/rewrite steps run after `os.chdir(md_file.parent)` but outside
the inner `try/finally`; when `md_file.read_text` raises, the outer
`except` returns `False` with the process still in the Markdown file's
directory. -/
theorem cwd_not_restored_on_read_exception :
    convert_markdown_to_epub ⟨true, false, false⟩ "orig" "mddir" "x" =
      { success := false, finalCwd := "mddir", diskContent := "x",
        compilerInput := none } ∧
    ("mddir" : String) ≠ "orig" := by
  refine ⟨by decide, by decide⟩

/-! ## C6: pipeline invariant on when the compiler is invoked -/

/-- C6 counterexample: when the extractor leaves an *empty* Markdown file at
the expected staging path, `main` still hands it to the Compilation Driver
— the claimed invariant "an EPUB is produced only if a non-empty Markdown
file exists at the expected staging path" is false. -/
theorem epub_from_empty_markdown :
    ¬ (((mainStepMarkdown emptyMdEnv false false false none).1.isSome = true) →
        ∃ c, (mainStepMarkdown emptyMdEnv false false false none).2 = some c ∧
          0 < c.length) := by
  intro hcl
  obtain ⟨c, hc, hlen⟩ := hcl (by decide)
  have hv : (mainStepMarkdown emptyMdEnv false false false none).2 = some "" := by decide
  rw [hv] at hc
  cases Option.some.inj hc
  simp at hlen

theorem markerFinish_cases (env : MarkerEnv) (file : Option String) (p : MdPath)
    (h : (markerFinish env file).1 = some p) :
    (p = MdPath.expected ∧ (markerFinish env file).2.isSome = true) ∨
    (∃ q, p = MdPath.found q ∧ env.fallback = some q) := by
  cases file with
  | some c =>
    left
    refine ⟨?_, by simp [markerFinish]⟩
    simp [markerFinish] at h
    exact h.symm
  | none =>
    cases hf : env.fallback with
    | some q =>
      right
      refine ⟨q, ?_, rfl⟩
      simp [markerFinish, hf] at h
      exact h.symm
    | none => simp [markerFinish, hf] at h

theorem convert_cases (env : MarkerEnv) (noOcr smartOcr : Bool) (p : MdPath)
    (h : (convert_pdf_to_markdown env noOcr smartOcr).1 = some p) :
    (p = MdPath.expected ∧
      (convert_pdf_to_markdown env noOcr smartOcr).2.1.isSome = true) ∨
    (∃ q, p = MdPath.found q ∧ env.fallback = some q) := by
  unfold convert_pdf_to_markdown at h ⊢
  simp only [] at h ⊢
  cases hrun : env.run (if smartOcr then true else noOcr) with
  | err => rw [hrun] at h; exact absurd h (by simp)
  | ok file1 =>
    rw [hrun] at h
    simp only [] at h ⊢
    by_cases hflag : (smartOcr && (if smartOcr then true else noOcr)) = true
    · rw [if_pos hflag] at h ⊢
      cases file1 with
      | some content =>
        simp only [] at h ⊢
        by_cases hlen : (pyStrip content).length < 100
        · rw [if_pos hlen] at h ⊢
          cases hrun2 : env.run false with
          | err => rw [hrun2] at h; exact absurd h (by simp)
          | ok file2 =>
            rw [hrun2] at h
            simp only [] at h ⊢
            exact markerFinish_cases env file2 p h
        · rw [if_neg hlen] at h ⊢
          exact markerFinish_cases env (some content) p h
      | none =>
        simp only [] at h ⊢
        exact markerFinish_cases env none p h
    · rw [if_neg hflag] at h ⊢
      exact markerFinish_cases env file1 p h

/-- C6 amended: the Compilation Driver is invoked for a file only if a
Markdown file (possibly empty) exists at the expected staging path
`stagingDir/<stem>/<stem>.md`, or the recursive fallback glob for
`<stem>.md` found one elsewhere in the staging directory. -/
theorem epub_only_with_markdown_present (env : MarkerEnv)
    (noOcr smartOcr skipExisting : Bool) (staged : Option String) (p : MdPath)
    (h : (mainStepMarkdown env noOcr smartOcr skipExisting staged).1 = some p) :
    (p = MdPath.expected ∧
      (mainStepMarkdown env noOcr smartOcr skipExisting staged).2.isSome = true) ∨
    (∃ q, p = MdPath.found q ∧ env.fallback = some q) := by
  unfold mainStepMarkdown at h ⊢
  by_cases hskip : skipExisting = true
  · rw [if_pos hskip] at h ⊢
    cases staged with
    | some c => left; simp at h ⊢; exact h.symm
    | none => simp at h
  · rw [if_neg hskip] at h ⊢
    exact convert_cases env noOcr smartOcr p h

theorem epub_only_with_markdown_present_witness :
    (MdPath.expected = MdPath.expected ∧
      (mainStepMarkdown emptyMdEnv false false false none).2.isSome = true) ∨
    (∃ q, MdPath.expected = MdPath.found q ∧ emptyMdEnv.fallback = some q) :=
  epub_only_with_markdown_present emptyMdEnv false false false none
    MdPath.expected (by decide)

/-! ## C7: repaired content written back before compilation -/

/-! ## C9: code-unwrapping -/

theorem xCall_eq (name post : List Char) :
    ∀ l xt rest, xCall name post l = some (xt, rest) → l = xt ++ rest := by
  intro l xt rest h
  unfold xCall at h
  cases hs : stripPfx name l with
  | none => rw [hs] at h; exact absurd h (by simp)
  | some l1 =>
    rw [hs] at h
    simp only [] at h
    cases hp : stripPfx post (spanP isPySpace l1).2 with
    | none => rw [hp] at h; exact absurd h (by simp)
    | some l2 =>
      rw [hp] at h
      have h1 := congrArg Prod.fst (Option.some.inj h)
      have h2 := congrArg Prod.snd (Option.some.inj h)
      simp only [] at h1 h2
      have hl : l = name ++ l1 := stripPfx_eq _ _ _ hs
      have hsp : (spanP isPySpace l1).1 ++ (spanP isPySpace l1).2 = l1 :=
        spanP_eq _ _
      have hpost : (spanP isPySpace l1).2 = post ++ l2 := stripPfx_eq _ _ _ hp
      subst h2
      calc l = name ++ l1 := hl
        _ = name ++ ((spanP isPySpace l1).1 ++ (spanP isPySpace l1).2) := by
              rw [hsp]
        _ = name ++ ((spanP isPySpace l1).1 ++ (post ++ l2)) := by rw [hpost]
        _ = (name ++ (spanP isPySpace l1).1 ++ post) ++ l2 := by
              simp [List.append_assoc]
        _ = xt ++ l2 := by rw [h1]

theorem xLit_eq (name : List Char) :
    ∀ l xt rest, xLit name l = some (xt, rest) → l = xt ++ rest := by
  intro l xt rest h
  unfold xLit at h
  cases hs : stripPfx name l with
  | none => rw [hs] at h; exact absurd h (by simp)
  | some l1 =>
    rw [hs] at h
    have h1 := congrArg Prod.fst (Option.some.inj h)
    have h2 := congrArg Prod.snd (Option.some.inj h)
    simp only [] at h1 h2
    rw [← h1, ← h2]
    exact stripPfx_eq _ _ _ hs

theorem scanXAux_eq (X : List Char → Option (List Char × List Char))
    (hX : ∀ l xt rest, X l = some (xt, rest) → l = xt ++ rest) :
    ∀ l acc pre xt after, scanXAux X acc l = some (pre, xt, after) →
      acc.reverse ++ l = pre ++ (xt ++ after) := by
  intro l
  induction l with
  | nil => intro acc pre xt after h; exact absurd h (by simp [scanXAux])
  | cons c cs ih =>
    intro acc pre xt after h
    unfold scanXAux at h
    cases hx : X (c :: cs) with
    | some p =>
      obtain ⟨xt', after'⟩ := p
      rw [hx] at h
      simp only [] at h
      have h1 := congrArg (fun q => q.1) (Option.some.inj h)
      have h2 := congrArg (fun q => q.2.1) (Option.some.inj h)
      have h3 := congrArg (fun q => q.2.2) (Option.some.inj h)
      simp only [] at h1 h2 h3
      rw [← h1, ← h2, ← h3, hX (c :: cs) xt' after' hx]
    | none =>
      rw [hx] at h
      simp only [] at h
      by_cases hc : c = '$'
      · rw [if_pos hc] at h; exact absurd h (by simp)
      · rw [if_neg hc] at h
        have hrec := ih (c :: acc) pre xt after h
        rw [List.reverse_cons, List.append_assoc] at hrec
        simpa using hrec

theorem scanCloseAux_eq (close : List Char) :
    ∀ l acc mid rest, scanCloseAux close acc l = some (mid, rest) →
      acc.reverse ++ l = mid ++ (close ++ rest) := by
  intro l
  induction l with
  | nil => intro acc mid rest h; exact absurd h (by simp [scanCloseAux])
  | cons c cs ih =>
    intro acc mid rest h
    unfold scanCloseAux at h
    cases hs : stripPfx close (c :: cs) with
    | some r =>
      rw [hs] at h
      simp only [] at h
      have h1 := congrArg Prod.fst (Option.some.inj h)
      have h2 := congrArg Prod.snd (Option.some.inj h)
      simp only [] at h1 h2
      rw [← h1, ← h2, stripPfx_eq _ _ _ hs]
    | none =>
      rw [hs] at h
      have hrec := ih (c :: acc) mid rest h
      rw [List.reverse_cons, List.append_assoc] at hrec
      simpa using hrec

/-- Structure of a code-unwrapping replacement: the matched span starts with
an opening delimiter (`$$` or a single `$`), its content is kept verbatim as
the replacement, and the span ends with the *same* closing delimiter. -/
theorem tryCode_consumes (X : List Char → Option (List Char × List Char))
    (hX : ∀ l xt rest, X l = some (xt, rest) → l = xt ++ rest) :
    ∀ l repl rest, tryCode X l = some (repl, rest) →
      l = '$' :: '$' :: (repl ++ '$' :: '$' :: rest) ∨
      l = '$' :: (repl ++ '$' :: rest) := by
  intro l repl rest h
  unfold tryCode at h
  split at h
  next r =>
    -- l = '$' :: '$' :: r
    left
    cases hsx : scanXAux X [] r with
    | none => rw [hsx] at h; exact absurd h (by simp)
    | some p =>
      obtain ⟨pre, xt, after⟩ := p
      rw [hsx] at h
      simp only [] at h
      cases hsc : scanCloseAux ['$', '$'] [] after with
      | none => rw [hsc] at h; exact absurd h (by simp)
      | some q =>
        obtain ⟨mid, rest'⟩ := q
        rw [hsc] at h
        simp only [] at h
        have h1 := congrArg Prod.fst (Option.some.inj h)
        have h2 := congrArg Prod.snd (Option.some.inj h)
        simp only [] at h1 h2
        have e1 := scanXAux_eq X hX r [] pre xt after hsx
        have e2 := scanCloseAux_eq ['$', '$'] after [] mid rest' hsc
        simp only [List.reverse_nil, List.nil_append] at e1 e2
        rw [e1, e2, ← h1, ← h2]
        simp [List.append_assoc]
  next r hprev =>
    -- l = '$' :: r with r not starting in '$'
    right
    cases hsx : scanXAux X [] r with
    | none => rw [hsx] at h; exact absurd h (by simp)
    | some p =>
      obtain ⟨pre, xt, after⟩ := p
      rw [hsx] at h
      simp only [] at h
      cases hsc : scanCloseAux ['$'] [] after with
      | none => rw [hsc] at h; exact absurd h (by simp)
      | some q =>
        obtain ⟨mid, rest'⟩ := q
        rw [hsc] at h
        simp only [] at h
        have h1 := congrArg Prod.fst (Option.some.inj h)
        have h2 := congrArg Prod.snd (Option.some.inj h)
        simp only [] at h1 h2
        have e1 := scanXAux_eq X hX r [] pre xt after hsx
        have e2 := scanCloseAux_eq ['$'] after [] mid rest' hsc
        simp only [List.reverse_nil, List.nil_append] at e1 e2
        rw [e1, e2, ← h1, ← h2]
        simp [List.append_assoc]
  next => exact absurd h (by simp)

/-- C9: `fix_latex_math` turns `$printf("Sum = %d", x)$` into
`printf("Sum = %d", x)`, and every replacement of the code-unwrapping rule
consumes a matched opening delimiter through the corresponding closing
delimiter of the same kind — `$$...$$` or `$...$` — with the inner content
preserved verbatim, never spanning across delimiter boundaries. -/
theorem code_unwrap_spec :
    fix_latex_math "$printf(\"Sum = %d\", x)$" = "printf(\"Sum = %d\", x)" ∧
    (∀ l repl rest, tryCode xPrintf l = some (repl, rest) →
      l = '$' :: '$' :: (repl ++ '$' :: '$' :: rest) ∨
      l = '$' :: (repl ++ '$' :: rest)) :=
  ⟨by decide, tryCode_consumes xPrintf (xCall_eq _ _)⟩

theorem code_unwrap_spec_witness :
    ("$printf(x)$".data =
      '$' :: '$' :: ("printf(x)".data ++ '$' :: '$' :: ([] : List Char))) ∨
    ("$printf(x)$".data = '$' :: ("printf(x)".data ++ '$' :: ([] : List Char))) :=
  code_unwrap_spec.2 "$printf(x)$".data "printf(x)".data [] (by decide)

/-! ## C10: hardware profile -/

theorem sum_map_div_nat (l : List Nat) (c : ℚ) :
    (l.map (fun m : ℕ => (m : ℚ) / c)).sum = ((l.sum : ℚ)) / c := by
  induction l with
  | nil => simp
  | cons a as ih =>
    simp only [List.map_cons, List.sum_cons, ih, List.sum_cons]
    push_cast
    ring

theorem clamp_eq_max (w : ℤ) : (if w < 1 then 1 else w) = max 1 w := by
  rcases lt_or_le w 1 with hw | hw
  · rw [if_pos hw, max_eq_left hw.le]
  · rw [if_neg (not_lt.2 hw), max_eq_right hw]

/-- C10: `get_hardware_config` returns (CPU core count, 1) with no GPU and
(`max(1, floor(totalMemoryGiB / 5))`, 8) with a GPU, summing the memory of
all visible devices; in particular 8 CPU cores give (8, 1), one 8-GiB GPU
gives (1, 8) and one 24-GiB GPU gives (4, 8). -/
theorem hardware_config_spec :
    (∀ hw : HardwareInfo, hw.cpuCount ≠ 0 → (hw.torchOk && hw.cudaOk) = false →
        get_hardware_config hw = (hw.cpuCount, 1)) ∧
    (∀ hw : HardwareInfo, (hw.torchOk && hw.cudaOk) = true →
        get_hardware_config hw =
          ((max 1 (Int.floor (((hw.gpuMemBytes.sum : ℚ) / 2 ^ 30) / 5))).toNat, 8)) ∧
    get_hardware_config ⟨8, true, false, []⟩ = (8, 1) ∧
    get_hardware_config ⟨8, true, true, [8 * 2 ^ 30]⟩ = (1, 8) ∧
    get_hardware_config ⟨8, true, true, [24 * 2 ^ 30]⟩ = (4, 8) := by
  have hgpu : ∀ hw : HardwareInfo, (hw.torchOk && hw.cudaOk) = true →
      get_hardware_config hw =
        ((max 1 (Int.floor (((hw.gpuMemBytes.sum : ℚ) / 2 ^ 30) / 5))).toNat, 8) := by
    intro hw h
    unfold get_hardware_config
    rw [h]
    simp only [if_true, clamp_eq_max, sum_map_div_nat]
    norm_num
  refine ⟨?_, hgpu, by decide, ?_, ?_⟩
  · intro hw hcpu hg
    unfold get_hardware_config
    rw [hg]
    simp [hcpu]
  · rw [hgpu ⟨8, true, true, [8 * 2 ^ 30]⟩ rfl]
    have hq : (((([8 * 2 ^ 30] : List ℕ).sum : ℚ)) / 2 ^ 30) / 5 = 8 / 5 := by
      push_cast
      norm_num
    rw [hq, show ⌊(8 / 5 : ℚ)⌋ = 1 by (rw [Int.floor_eq_iff]; norm_num)]
    norm_num
  · rw [hgpu ⟨8, true, true, [24 * 2 ^ 30]⟩ rfl]
    have hq : (((([24 * 2 ^ 30] : List ℕ).sum : ℚ)) / 2 ^ 30) / 5 = 24 / 5 := by
      push_cast
      norm_num
    rw [hq, show ⌊(24 / 5 : ℚ)⌋ = 4 by (rw [Int.floor_eq_iff]; norm_num)]
    norm_num
    decide

theorem hardware_config_spec_witness :
    get_hardware_config ⟨4, false, false, []⟩ = (4, 1) :=
  hardware_config_spec.1 ⟨4, false, false, []⟩ (by decide) (by decide)

/-! ## Machinery lemmas for reasoning about `subM` passes -/

theorem subMAux_zero (m : Matcher) (l : List Char) : subMAux m 0 l = l := by
  cases l <;> rfl

theorem subMAux_nil (m : Matcher) (f : Nat) : subMAux m f [] = [] := by
  cases f <;> rfl

theorem subMAux_cons_succ (m : Matcher) (f : Nat) (c : Char) (cs : List Char) :
    subMAux m (f + 1) (c :: cs) =
      match m (c :: cs) with
      | some (r, rest) => r ++ subMAux m f rest
      | none => c :: subMAux m f cs := rfl

theorem stripPfx_none {a : Char} {p l : List Char} (hp : a ∈ p) (hl : a ∉ l) :
    stripPfx p l = none := by
  cases hs : stripPfx p l with
  | none => rfl
  | some r => exact absurd (stripPfx_eq _ _ _ hs ▸ List.mem_append_left r hp) hl

theorem not_mem_spanP_snd {a : Char} {p : Char → Bool} {l : List Char} (h : a ∉ l) :
    a ∉ (spanP p l).2 := fun hm => h (spanP_eq p l ▸ List.mem_append_right _ hm)

theorem not_mem_stripPfx {a : Char} {p l r : List Char}
    (hs : stripPfx p l = some r) (h : a ∉ l) : a ∉ r :=
  fun hm => h (stripPfx_eq _ _ _ hs ▸ List.mem_append_right p hm)

/-- A pass over a string none of whose suffixes start a match is the
identity. -/
theorem subMAux_id_of_none (m : Matcher) :
    ∀ (fuel : Nat) (l : List Char),
      (∀ t, t <:+ l → m t = none) → subMAux m fuel l = l := by
  intro fuel
  induction fuel with
  | zero => intro l _; exact subMAux_zero m l
  | succ f ih =>
    intro l h
    cases l with
    | nil => exact subMAux_nil m _
    | cons c cs =>
      rw [subMAux_cons_succ, h (c :: cs) List.suffix_rfl,
        ih cs (fun t ht => h t (ht.trans (List.suffix_cons c cs)))]

theorem subM_id_of_none (m : Matcher) (l : List Char)
    (h : ∀ t, t <:+ l → m t = none) : subM m l = l :=
  subMAux_id_of_none m l.length l h

/-- A pass walks untouched over a prefix none of whose nonempty suffixes
(followed by the remainder) starts a match. -/
theorem subMAux_walk (m : Matcher) :
    ∀ (l₁ : List Char) (f : Nat) (l₂ : List Char),
      (∀ t₁, t₁ <:+ l₁ → t₁ ≠ [] → m (t₁ ++ l₂) = none) →
      subMAux m (l₁.length + f) (l₁ ++ l₂) = l₁ ++ subMAux m f l₂ := by
  intro l₁
  induction l₁ with
  | nil => intro f l₂ _; simp
  | cons c cs ih =>
    intro f l₂ h
    have hm : m (c :: (cs ++ l₂)) = none := h (c :: cs) List.suffix_rfl (by simp)
    have harith : (c :: cs).length + f = (cs.length + f) + 1 := by
      simp only [List.length_cons]; omega
    rw [harith, List.cons_append, subMAux_cons_succ, hm,
      ih f l₂ (fun t₁ ht hne => h t₁ (ht.trans (List.suffix_cons c cs)) hne)]
    rfl

theorem sfx_append {t l₁ l₂ : List Char} (h : t <:+ l₁ ++ l₂) :
    t <:+ l₂ ∨ ∃ t₁, t₁ <:+ l₁ ∧ t₁ ≠ [] ∧ t = t₁ ++ l₂ := by
  induction l₁ with
  | nil => left; simpa using h
  | cons c cs ih =>
    rw [List.cons_append, List.suffix_cons_iff] at h
    rcases h with h | h
    · right; exact ⟨c :: cs, List.suffix_rfl, by simp, h⟩
    · rcases ih h with h' | ⟨t₁, h1, h2, h3⟩
      · left; exact h'
      · right; exact ⟨t₁, h1.trans (List.suffix_cons c cs), h2, h3⟩

theorem sfx_replicate {t : List Char} {c : Char} :
    ∀ {j}, t <:+ List.replicate j c → ∃ i, i ≤ j ∧ t = List.replicate i c := by
  intro j
  induction j with
  | zero => intro h; exact ⟨0, Nat.le_refl 0, by simpa using h⟩
  | succ j ih =>
    intro h
    rw [List.replicate_succ, List.suffix_cons_iff] at h
    rcases h with h | h
    · exact ⟨j + 1, Nat.le_refl _, by rw [h, List.replicate_succ]⟩
    · rcases ih h with ⟨i, hi, ht⟩
      exact ⟨i, Nat.le_succ_of_le hi, ht⟩

theorem spanP_replicate {p : Char → Bool} {c : Char} (hp : p c = true) (k : Nat)
    (rest : List Char) :
    spanP p (List.replicate k c ++ rest) =
      (List.replicate k c ++ (spanP p rest).1, (spanP p rest).2) := by
  induction k with
  | zero => simp
  | succ j ih => simp [List.replicate_succ, spanP, hp, ih]

/-- Pull one `c` of a following group through a `replicate` run of `c`s. -/
theorem replicate_append_cons (j : Nat) (c : Char) (rest : List Char) :
    List.replicate j c ++ c :: rest = c :: (List.replicate j c ++ rest) := by
  induction j with
  | zero => simp
  | succ i ih => simp only [List.replicate_succ, List.cons_append, ih]

/-! ### No-match conditions for the individual rules -/

theorem tryRmBraced_none {l : List Char} (h : 'r' ∉ l) : tryRmBraced l = none := by
  unfold tryRmBraced
  rw [stripPfx_none (by decide) h]

theorem tryRmBare_none {l : List Char} (h : 'r' ∉ l) : tryRmBare l = none := by
  unfold tryRmBare
  rw [stripPfx_none (by decide) h]

theorem matchLit_rm_none {l : List Char} (h : 'r' ∉ l) :
    matchLit ['\\', 'r', 'm'] ['\\', 'm', 'a', 't', 'h', 'r', 'm'] l = none := by
  unfold matchLit
  rw [stripPfx_none (by decide) h]

theorem tryArray_none {l : List Char} (h : 'b' ∉ l) : tryArray l = none := by
  unfold tryArray
  rw [stripPfx_none (a := 'b') (by decide) h]

theorem tryCode_none {X : List Char → Option (List Char × List Char)}
    {l : List Char} (h : '$' ∉ l) : tryCode X l = none := by
  cases l with
  | nil => rfl
  | cons c cs =>
    have hc : ¬ c = '$' := fun hh => h (hh ▸ List.mem_cons_self c cs)
    unfold tryCode
    split
    · next heq => exact absurd (List.cons.inj heq).1 hc
    · next heq => exact absurd (List.cons.inj heq).1 hc
    · rfl

theorem try6a_none {l : List Char} (h : ')' ∉ l) : try6a l = none := by
  unfold try6a
  cases hs : stripPfx ['\\', '\\'] l with
  | none => rfl
  | some l1 =>
    simp only []
    rw [stripPfx_none (a := ')') (by decide)
      (not_mem_spanP_snd (not_mem_stripPfx hs h))]

theorem try6b_none {l : List Char} (h : ']' ∉ l) : try6b l = none := by
  unfold try6b
  cases hs : stripPfx ['\\', '\\'] l with
  | none => rfl
  | some l1 =>
    simp only []
    rw [stripPfx_none (a := ']') (by decide)
      (not_mem_spanP_snd (not_mem_stripPfx hs h))]

theorem try6c_none {l : List Char} (h : ')' ∉ l) : try6c l = none := by
  unfold try6c
  by_cases hbs : (spanP (fun c => c = '\\') l).1.isEmpty = true
  · rw [if_pos hbs]
  · rw [if_neg hbs]
    have h2 : ')' ∉ (spanP isPySpace (spanP (fun c => c = '\\') l).2).2 :=
      not_mem_spanP_snd (not_mem_spanP_snd h)
    by_cases hws : (spanP isPySpace (spanP (fun c => c = '\\') l).2).1.isEmpty = true
    · rw [if_pos hws]
      by_cases hlen : 2 ≤ (spanP (fun c => c = '\\') l).1.length
      · rw [if_pos hlen]
        cases hm : (spanP isPySpace (spanP (fun c => c = '\\') l).2).2 with
        | nil => rfl
        | cons d ds =>
          have hd : ¬ d = ')' :=
            fun hh => (hm ▸ h2) (hh ▸ List.mem_cons_self d ds)
          split
          · next heq => exact absurd (List.cons.inj heq).1 hd
          · rfl
      · rw [if_neg hlen]
    · rw [if_neg hws]
      rw [stripPfx_none (a := ')') (by decide) h2]

theorem try6a_none_head {c : Char} {cs : List Char} (hc : ¬ c = '\\') :
    try6a (c :: cs) = none := by
  unfold try6a
  rw [show stripPfx ['\\', '\\'] (c :: cs) = none from by simp [stripPfx, hc]]

theorem try6a_none_two {c : Char} {cs : List Char} (hc : ¬ c = '\\') :
    try6a ('\\' :: c :: cs) = none := by
  unfold try6a
  rw [show stripPfx ['\\', '\\'] ('\\' :: c :: cs) = none from by simp [stripPfx, hc]]

theorem try6b_none_head {c : Char} {cs : List Char} (hc : ¬ c = '\\') :
    try6b (c :: cs) = none := by
  unfold try6b
  rw [show stripPfx ['\\', '\\'] (c :: cs) = none from by simp [stripPfx, hc]]

theorem try6b_none_two {c : Char} {cs : List Char} (hc : ¬ c = '\\') :
    try6b ('\\' :: c :: cs) = none := by
  unfold try6b
  rw [show stripPfx ['\\', '\\'] ('\\' :: c :: cs) = none from by simp [stripPfx, hc]]

theorem try6c_none_head {c : Char} {cs : List Char} (hc : ¬ c = '\\') :
    try6c (c :: cs) = none := by
  unfold try6c
  simp [spanP, hc]

theorem try6c_one {c : Char} {cs : List Char} (hc : ¬ c = '\\')
    (hw : isPySpace c = false) : try6c ('\\' :: c :: cs) = none := by
  unfold try6c
  simp [spanP, hc, hw]

theorem try6d_none_head {c : Char} {cs : List Char} (hc : ¬ c = '\\') :
    try6d (c :: cs) = none := by
  unfold try6d
  simp [spanP, hc]

theorem try6d_one {c : Char} {cs : List Char} (hc : ¬ c = '\\')
    (hw : isPySpace c = false) : try6d ('\\' :: c :: cs) = none := by
  unfold try6d
  simp [spanP, hc, hw]

theorem stripPfx_rparen_none (j k : Nat) (d : Char) (hd : ¬ d = ')')
    (rest : List Char) :
    stripPfx [')'] (List.replicate j '\\' ++
      (List.replicate k ' ' ++ d :: rest)) = none := by
  cases j with
  | zero =>
    cases k with
    | zero => simp [stripPfx, hd]
    | succ t => simp [List.replicate_succ, stripPfx]
  | succ t => simp [List.replicate_succ, stripPfx]

/-- A `spanP` whose class covers the leading run and rejects the next
character splits exactly at the run boundary. -/
theorem spanP_run_exposed (p : Char → Bool) (c : Char) (hp : p c = true)
    (k : Nat) (d : Char) (hd : p d = false) (rest : List Char) :
    spanP p (List.replicate k c ++ d :: rest) =
      (List.replicate k c, d :: rest) := by
  rw [spanP_replicate hp]
  simp [spanP, hd]

theorem try6a_none_midrun (i k : Nat) (hi : 1 ≤ i) :
    try6a (List.replicate i '\\' ++
      ('\\' :: '\\' :: (List.replicate k ' ' ++ ['\\', ')']))) = none := by
  rw [replicate_append_cons, replicate_append_cons]
  obtain ⟨j, rfl⟩ : ∃ j, i = j + 1 := ⟨i - 1, by omega⟩
  rw [List.replicate_succ, List.cons_append]
  unfold try6a
  rw [show stripPfx ['\\', '\\']
      ('\\' :: '\\' :: ('\\' :: (List.replicate j '\\' ++
        (List.replicate k ' ' ++ ['\\', ')'])))) =
      some ('\\' :: (List.replicate j '\\' ++
        (List.replicate k ' ' ++ ['\\', ')']))) from by simp [stripPfx]]
  simp only []
  rw [show spanP isPySpace ('\\' :: (List.replicate j '\\' ++
      (List.replicate k ' ' ++ ['\\', ')']))) =
      ([], '\\' :: (List.replicate j '\\' ++
        (List.replicate k ' ' ++ ['\\', ')']))) from by simp [spanP, isPySpace]]
  simp only []
  rw [show stripPfx ['\\', ')'] ('\\' :: (List.replicate j '\\' ++
      (List.replicate k ' ' ++ ['\\', ')']))) =
      stripPfx [')'] (List.replicate j '\\' ++
        (List.replicate k ' ' ++ ['\\', ')'])) from by simp [stripPfx]]
  rw [stripPfx_rparen_none j k '\\' (by decide)]

theorem try6a_fires (k : Nat) :
    try6a ('\\' :: '\\' :: (List.replicate k ' ' ++ ['\\', ')'])) =
      some ([' ', '\\', ')'], []) := by
  unfold try6a
  rw [show stripPfx ['\\', '\\']
      ('\\' :: '\\' :: (List.replicate k ' ' ++ ['\\', ')'])) =
      some (List.replicate k ' ' ++ ['\\', ')']) from by simp [stripPfx]]
  simp only []
  rw [spanP_run_exposed isPySpace ' ' (by decide) k '\\' (by decide) [')']]
  simp [stripPfx]

theorem try6c_fires_sp (k : Nat) :
    try6c ('\\' :: (List.replicate k ' ' ++ ['\\', ')'])) =
      some ([' ', '\\', ')'], []) := by
  cases k with
  | zero => decide
  | succ t =>
    unfold try6c
    rw [List.replicate_succ, List.cons_append]
    rw [show spanP (fun c => c = '\\')
        ('\\' :: (' ' :: (List.replicate t ' ' ++ ['\\', ')']))) =
        (['\\'], ' ' :: (List.replicate t ' ' ++ ['\\', ')'])) from by
      simp [spanP]]
    simp only []
    rw [show (' ' :: (List.replicate t ' ' ++ ['\\', ')'])) =
        (List.replicate (t + 1) ' ' ++ ['\\', ')']) from by
      simp [List.replicate_succ]]
    rw [spanP_run_exposed isPySpace ' ' (by decide) (t + 1) '\\' (by decide) [')']]
    simp [stripPfx, List.replicate_succ]

theorem try6c_fires_run (m : Nat) (hm : 1 ≤ m) :
    try6c (List.replicate m '\\' ++ [' ', '\\', ')']) =
      some ([' ', '\\', ')'], []) := by
  unfold try6c
  rw [show ([' ', '\\', ')'] : List Char) = ' ' :: ['\\', ')'] from rfl,
    spanP_run_exposed (fun c => c = '\\') '\\' (by decide) m ' ' (by decide) ['\\', ')']]
  simp only []
  rw [show spanP isPySpace (' ' :: ['\\', ')']) = ([' '], ['\\', ')']) from by
    simp [spanP, isPySpace]]
  obtain ⟨j, rfl⟩ : ∃ j, m = j + 1 := ⟨m - 1, by omega⟩
  simp [stripPfx, List.replicate_succ]

theorem stripPfx_rbracket_none (j k : Nat) (d : Char) (hd : ¬ d = ']')
    (rest : List Char) :
    stripPfx [']'] (List.replicate j '\\' ++
      (List.replicate k ' ' ++ d :: rest)) = none := by
  cases j with
  | zero =>
    cases k with
    | zero => simp [stripPfx, hd]
    | succ t => simp [List.replicate_succ, stripPfx]
  | succ t => simp [List.replicate_succ, stripPfx]

theorem try6b_none_midrun (i k : Nat) (hi : 1 ≤ i) :
    try6b (List.replicate i '\\' ++
      ('\\' :: '\\' :: (List.replicate k ' ' ++ ['\\', ']']))) = none := by
  rw [replicate_append_cons, replicate_append_cons]
  obtain ⟨j, rfl⟩ : ∃ j, i = j + 1 := ⟨i - 1, by omega⟩
  rw [List.replicate_succ, List.cons_append]
  unfold try6b
  rw [show stripPfx ['\\', '\\']
      ('\\' :: '\\' :: ('\\' :: (List.replicate j '\\' ++
        (List.replicate k ' ' ++ ['\\', ']'])))) =
      some ('\\' :: (List.replicate j '\\' ++
        (List.replicate k ' ' ++ ['\\', ']']))) from by simp [stripPfx]]
  simp only []
  rw [show spanP isPySpace ('\\' :: (List.replicate j '\\' ++
      (List.replicate k ' ' ++ ['\\', ']']))) =
      ([], '\\' :: (List.replicate j '\\' ++
        (List.replicate k ' ' ++ ['\\', ']']))) from by simp [spanP, isPySpace]]
  simp only []
  rw [show stripPfx ['\\', ']'] ('\\' :: (List.replicate j '\\' ++
      (List.replicate k ' ' ++ ['\\', ']']))) =
      stripPfx [']'] (List.replicate j '\\' ++
        (List.replicate k ' ' ++ ['\\', ']'])) from by simp [stripPfx]]
  rw [stripPfx_rbracket_none j k '\\' (by decide)]

theorem try6b_fires (k : Nat) :
    try6b ('\\' :: '\\' :: (List.replicate k ' ' ++ ['\\', ']'])) =
      some ([' ', '\\', ']'], []) := by
  unfold try6b
  rw [show stripPfx ['\\', '\\']
      ('\\' :: '\\' :: (List.replicate k ' ' ++ ['\\', ']'])) =
      some (List.replicate k ' ' ++ ['\\', ']']) from by simp [stripPfx]]
  simp only []
  rw [spanP_run_exposed isPySpace ' ' (by decide) k '\\' (by decide) [']']]
  simp [stripPfx]

theorem try6d_fires_sp (k : Nat) :
    try6d ('\\' :: (List.replicate k ' ' ++ ['\\', ']'])) =
      some ([' ', '\\', ']'], []) := by
  cases k with
  | zero => decide
  | succ t =>
    unfold try6d
    rw [List.replicate_succ, List.cons_append]
    rw [show spanP (fun c => c = '\\')
        ('\\' :: (' ' :: (List.replicate t ' ' ++ ['\\', ']']))) =
        (['\\'], ' ' :: (List.replicate t ' ' ++ ['\\', ']'])) from by
      simp [spanP]]
    simp only []
    rw [show (' ' :: (List.replicate t ' ' ++ ['\\', ']'])) =
        (List.replicate (t + 1) ' ' ++ ['\\', ']']) from by
      simp [List.replicate_succ]]
    rw [spanP_run_exposed isPySpace ' ' (by decide) (t + 1) '\\' (by decide) [']']]
    simp [stripPfx, List.replicate_succ]

theorem try6d_fires_run (m : Nat) (hm : 1 ≤ m) :
    try6d (List.replicate m '\\' ++ [' ', '\\', ']']) =
      some ([' ', '\\', ']'], []) := by
  unfold try6d
  rw [show ([' ', '\\', ']'] : List Char) = ' ' :: ['\\', ']'] from rfl,
    spanP_run_exposed (fun c => c = '\\') '\\' (by decide) m ' ' (by decide) ['\\', ']']]
  simp only []
  rw [show spanP isPySpace (' ' :: ['\\', ']']) = ([' '], ['\\', ']']) from by
    simp [spanP, isPySpace]]
  obtain ⟨j, rfl⟩ : ∃ j, m = j + 1 := ⟨m - 1, by omega⟩
  simp [stripPfx, List.replicate_succ]

theorem try6d_none {l : List Char} (h : ']' ∉ l) : try6d l = none := by
  unfold try6d
  by_cases hbs : (spanP (fun c => c = '\\') l).1.isEmpty = true
  · rw [if_pos hbs]
  · rw [if_neg hbs]
    have h2 : ']' ∉ (spanP isPySpace (spanP (fun c => c = '\\') l).2).2 :=
      not_mem_spanP_snd (not_mem_spanP_snd h)
    by_cases hws : (spanP isPySpace (spanP (fun c => c = '\\') l).2).1.isEmpty = true
    · rw [if_pos hws]
      by_cases hlen : 2 ≤ (spanP (fun c => c = '\\') l).1.length
      · rw [if_pos hlen]
        cases hm : (spanP isPySpace (spanP (fun c => c = '\\') l).2).2 with
        | nil => rfl
        | cons d ds =>
          have hd : ¬ d = ']' :=
            fun hh => (hm ▸ h2) (hh ▸ List.mem_cons_self d ds)
          split
          · next heq => exact absurd (List.cons.inj heq).1 hd
          · rfl
      · rw [if_neg hlen]
    · rw [if_neg hws]
      rw [stripPfx_none (a := ']') (by decide) h2]

/-! ### C8 groundwork: families `prefix ++ backslash-run ++ spaces ++ delimiter` -/

theorem not_mem_family {a bc wc : Char} {p d : List Char} (hp : a ∉ p) (hd : a ∉ d)
    (hb : a ≠ bc) (hw : a ≠ wc) (n k : Nat) :
    a ∉ p ++ (List.replicate n bc ++ (List.replicate k wc ++ d)) := by
  intro hm
  rcases List.mem_append.mp hm with h | h
  · exact hp h
  rcases List.mem_append.mp h with h | h
  · exact hb (List.eq_of_mem_replicate h)
  rcases List.mem_append.mp h with h | h
  · exact hw (List.eq_of_mem_replicate h)
  · exact hd h

theorem not_mem_family2 {a bc : Char} {p d : List Char} (hp : a ∉ p)
    (hb : a ≠ bc) (hd : a ∉ d) (m : Nat) :
    a ∉ (p ++ List.replicate m bc) ++ d := by
  intro hm
  rcases List.mem_append.mp hm with h | h
  · rcases List.mem_append.mp h with h | h
    · exact hp h
    · exact hb (List.eq_of_mem_replicate h)
  · exact hd h

/-- Rules 1–5 of `fix_latex_math` do nothing on a string free of `r`, `b`
and `$`. -/
theorem passes15_id (l : List Char) (hr : 'r' ∉ l) (hb : 'b' ∉ l)
    (hdl : '$' ∉ l) :
    subM (tryCode xConsoleLog) (subM (tryCode xSysOut) (subM (tryCode xCout)
      (subM (tryCode xFprintf) (subM (tryCode xPrintf) (subM tryArray
        (subM (matchLit ['\\', 'r', 'm'] ['\\', 'm', 'a', 't', 'h', 'r', 'm'])
          (subM tryRmBare (subM tryRmBraced l)))))))) = l := by
  rw [subM_id_of_none tryRmBraced l
      (fun t ht => tryRmBraced_none (fun hm => hr (ht.subset hm))),
    subM_id_of_none tryRmBare l
      (fun t ht => tryRmBare_none (fun hm => hr (ht.subset hm))),
    subM_id_of_none _ l
      (fun t ht => matchLit_rm_none (fun hm => hr (ht.subset hm))),
    subM_id_of_none tryArray l
      (fun t ht => tryArray_none (fun hm => hb (ht.subset hm))),
    subM_id_of_none _ l
      (fun t ht => tryCode_none (fun hm => hdl (ht.subset hm))),
    subM_id_of_none _ l
      (fun t ht => tryCode_none (fun hm => hdl (ht.subset hm))),
    subM_id_of_none _ l
      (fun t ht => tryCode_none (fun hm => hdl (ht.subset hm))),
    subM_id_of_none _ l
      (fun t ht => tryCode_none (fun hm => hdl (ht.subset hm))),
    subM_id_of_none _ l
      (fun t ht => tryCode_none (fun hm => hdl (ht.subset hm)))]

/-- C8, inline-math family: `fix_latex_math` collapses a trailing run of `n`
backslashes (then `k` spaces) before `\)` into a single space. -/
theorem fix_round (n k : Nat) (hn : 1 ≤ n) :
    fix_latex_math (String.mk (['\\', '(', 'x'] ++
      (List.replicate n '\\' ++ (List.replicate k ' ' ++ ['\\', ')'])))) =
    String.mk ['\\', '(', 'x', ' ', '\\', ')'] := by
  have hr : 'r' ∉ ['\\', '(', 'x'] ++
      (List.replicate n '\\' ++ (List.replicate k ' ' ++ ['\\', ')'])) :=
    not_mem_family (by decide) (by decide) (by decide) (by decide) n k
  have hb : 'b' ∉ ['\\', '(', 'x'] ++
      (List.replicate n '\\' ++ (List.replicate k ' ' ++ ['\\', ')'])) :=
    not_mem_family (by decide) (by decide) (by decide) (by decide) n k
  have hdl : '$' ∉ ['\\', '(', 'x'] ++
      (List.replicate n '\\' ++ (List.replicate k ' ' ++ ['\\', ')'])) :=
    not_mem_family (by decide) (by decide) (by decide) (by decide) n k
  have hbr : ']' ∉ ['\\', '(', 'x'] ++
      (List.replicate n '\\' ++ (List.replicate k ' ' ++ ['\\', ')'])) :=
    not_mem_family (by decide) (by decide) (by decide) (by decide) n k
  unfold fix_latex_math
  simp only []
  rw [passes15_id _ hr hb hdl]
  rcases n with _ | n1
  · exact absurd hn (by omega)
  rcases n1 with _ | m
  · -- n = 1: rule 6a does not fire, 6c collapses the single backslash
    have hL1 : ['\\', '(', 'x'] ++
        (List.replicate 1 '\\' ++ (List.replicate k ' ' ++ ['\\', ')'])) =
        ['\\', '(', 'x', '\\'] ++ (List.replicate k ' ' ++ ['\\', ')']) := by
      simp
    have h6a : subM try6a (['\\', '(', 'x'] ++
        (List.replicate 1 '\\' ++ (List.replicate k ' ' ++ ['\\', ')']))) =
        ['\\', '(', 'x'] ++
          (List.replicate 1 '\\' ++ (List.replicate k ' ' ++ ['\\', ')'])) := by
      apply subM_id_of_none
      intro t ht
      rw [hL1] at ht
      rcases sfx_append ht with h | ⟨t₁, ht1, hne, rfl⟩
      · rcases sfx_append h with h2 | ⟨w, hw1, hwne, rfl⟩
        · rw [List.suffix_cons_iff] at h2
          rcases h2 with rfl | h2
          · decide
          rw [List.suffix_cons_iff] at h2
          rcases h2 with rfl | h2
          · decide
          · rw [List.suffix_nil] at h2; subst h2; rfl
        · rcases sfx_replicate hw1 with ⟨i, _, rfl⟩
          cases i with
          | zero => exact (hwne (by simp)).elim
          | succ i1 =>
            rw [List.replicate_succ, List.cons_append]
            exact try6a_none_head (by decide)
      · rw [List.suffix_cons_iff] at ht1
        rcases ht1 with rfl | ht1
        · exact try6a_none_two (by decide)
        rw [List.suffix_cons_iff] at ht1
        rcases ht1 with rfl | ht1
        · exact try6a_none_head (by decide)
        rw [List.suffix_cons_iff] at ht1
        rcases ht1 with rfl | ht1
        · exact try6a_none_head (by decide)
        rw [List.suffix_cons_iff] at ht1
        rcases ht1 with rfl | ht1
        · cases k with
          | zero => decide
          | succ t2 =>
            rw [List.replicate_succ, List.singleton_append, List.cons_append]
            exact try6a_none_two (by decide)
        · rw [List.suffix_nil] at ht1; exact absurd ht1 hne
    rw [h6a]
    rw [subM_id_of_none try6b _
      (fun t ht => try6b_none (fun hm => hbr (ht.subset hm)))]
    have hL2 : ['\\', '(', 'x'] ++
        (List.replicate 1 '\\' ++ (List.replicate k ' ' ++ ['\\', ')'])) =
        ['\\', '(', 'x'] ++ ('\\' :: (List.replicate k ' ' ++ ['\\', ')'])) := by
      simp
    have h6c : subM try6c (['\\', '(', 'x'] ++
        (List.replicate 1 '\\' ++ (List.replicate k ' ' ++ ['\\', ')']))) =
        ['\\', '(', 'x'] ++ [' ', '\\', ')'] := by
      rw [hL2, subM, List.length_append, subMAux_walk]
      · congr 1
        rw [List.length_cons, subMAux_cons_succ, try6c_fires_sp k]
        simp [subMAux_nil]
      · intro t₁ ht1 hne
        rw [List.suffix_cons_iff] at ht1
        rcases ht1 with rfl | ht1
        · exact try6c_one (by decide) (by decide)
        rw [List.suffix_cons_iff] at ht1
        rcases ht1 with rfl | ht1
        · exact try6c_none_head (by decide)
        rw [List.suffix_cons_iff] at ht1
        rcases ht1 with rfl | ht1
        · exact try6c_none_head (by decide)
        · rw [List.suffix_nil] at ht1; exact absurd ht1 hne
    rw [h6c]
    decide
  · -- n = m + 2: rule 6a fires once, then 6c collapses the remaining run
    have hLm : ['\\', '(', 'x'] ++
        (List.replicate (m + 2) '\\' ++ (List.replicate k ' ' ++ ['\\', ')'])) =
        (['\\', '(', 'x'] ++ List.replicate m '\\') ++
          ('\\' :: '\\' :: (List.replicate k ' ' ++ ['\\', ')'])) := by
      rw [List.replicate_add]
      simp
    have h6a : subM try6a (['\\', '(', 'x'] ++
        (List.replicate (m + 2) '\\' ++ (List.replicate k ' ' ++ ['\\', ')']))) =
        (['\\', '(', 'x'] ++ List.replicate m '\\') ++ [' ', '\\', ')'] := by
      rw [hLm, subM, List.length_append, subMAux_walk]
      · congr 1
        rw [List.length_cons, subMAux_cons_succ, try6a_fires k]
        simp [subMAux_nil]
      · intro t₁ ht1 hne
        rcases sfx_append ht1 with h | ⟨t₂, ht2, hne2, rfl⟩
        · rcases sfx_replicate h with ⟨i, _, rfl⟩
          cases i with
          | zero => exact (hne (by simp)).elim
          | succ i1 => exact try6a_none_midrun (i1 + 1) k (by omega)
        · rw [List.suffix_cons_iff] at ht2
          rcases ht2 with rfl | ht2
          · rw [List.cons_append, List.cons_append]
            exact try6a_none_two (by decide)
          rw [List.suffix_cons_iff] at ht2
          rcases ht2 with rfl | ht2
          · rw [List.cons_append]
            exact try6a_none_head (by decide)
          rw [List.suffix_cons_iff] at ht2
          rcases ht2 with rfl | ht2
          · rw [List.cons_append]
            exact try6a_none_head (by decide)
          · rw [List.suffix_nil] at ht2; exact absurd ht2 hne2
    rw [h6a]
    rw [subM_id_of_none try6b _
      (fun t ht => try6b_none (fun hm =>
        (not_mem_family2 (by decide) (by decide) (by decide) m) (ht.subset hm)))]
    cases m with
    | zero =>
      simp only [List.replicate_zero, List.append_nil]
      decide
    | succ j =>
      have h6c : subM try6c ((['\\', '(', 'x'] ++ List.replicate (j + 1) '\\') ++
          [' ', '\\', ')']) = ['\\', '(', 'x'] ++ [' ', '\\', ')'] := by
        rw [List.append_assoc, subM, List.length_append, subMAux_walk]
        · congr 1
          rw [List.replicate_succ, List.cons_append, List.length_cons,
            subMAux_cons_succ]
          rw [show try6c ('\\' :: (List.replicate j '\\' ++ [' ', '\\', ')'])) =
              some ([' ', '\\', ')'], []) from by
            rw [show '\\' :: (List.replicate j '\\' ++ [' ', '\\', ')']) =
                List.replicate (j + 1) '\\' ++ [' ', '\\', ')'] from by
              simp [List.replicate_succ]]
            exact try6c_fires_run (j + 1) (by omega)]
          simp [subMAux_nil]
        · intro t₁ ht1 hne
          rw [List.suffix_cons_iff] at ht1
          rcases ht1 with rfl | ht1
          · exact try6c_one (by decide) (by decide)
          rw [List.suffix_cons_iff] at ht1
          rcases ht1 with rfl | ht1
          · exact try6c_none_head (by decide)
          rw [List.suffix_cons_iff] at ht1
          rcases ht1 with rfl | ht1
          · exact try6c_none_head (by decide)
          · rw [List.suffix_nil] at ht1; exact absurd ht1 hne
      rw [h6c]
      decide

/-- C8, display-math family: `fix_latex_math` collapses a trailing run of
`n` backslashes (then `k` spaces) before `\]` into a single space. -/
theorem fix_square (n k : Nat) (hn : 1 ≤ n) :
    fix_latex_math (String.mk (['\\', '[', 'x'] ++
      (List.replicate n '\\' ++ (List.replicate k ' ' ++ ['\\', ']'])))) =
    String.mk ['\\', '[', 'x', ' ', '\\', ']'] := by
  have hr : 'r' ∉ ['\\', '[', 'x'] ++
      (List.replicate n '\\' ++ (List.replicate k ' ' ++ ['\\', ']'])) :=
    not_mem_family (by decide) (by decide) (by decide) (by decide) n k
  have hb : 'b' ∉ ['\\', '[', 'x'] ++
      (List.replicate n '\\' ++ (List.replicate k ' ' ++ ['\\', ']'])) :=
    not_mem_family (by decide) (by decide) (by decide) (by decide) n k
  have hdl : '$' ∉ ['\\', '[', 'x'] ++
      (List.replicate n '\\' ++ (List.replicate k ' ' ++ ['\\', ']'])) :=
    not_mem_family (by decide) (by decide) (by decide) (by decide) n k
  have hrp : ')' ∉ ['\\', '[', 'x'] ++
      (List.replicate n '\\' ++ (List.replicate k ' ' ++ ['\\', ']'])) :=
    not_mem_family (by decide) (by decide) (by decide) (by decide) n k
  unfold fix_latex_math
  simp only []
  rw [passes15_id _ hr hb hdl]
  rw [subM_id_of_none try6a _
    (fun t ht => try6a_none (fun hm => hrp (ht.subset hm)))]
  rcases n with _ | n1
  · exact absurd hn (by omega)
  rcases n1 with _ | m
  · -- n = 1: rule 6b does not fire, 6d collapses the single backslash
    have hL1 : ['\\', '[', 'x'] ++
        (List.replicate 1 '\\' ++ (List.replicate k ' ' ++ ['\\', ']'])) =
        ['\\', '[', 'x', '\\'] ++ (List.replicate k ' ' ++ ['\\', ']']) := by
      simp
    have h6b : subM try6b (['\\', '[', 'x'] ++
        (List.replicate 1 '\\' ++ (List.replicate k ' ' ++ ['\\', ']']))) =
        ['\\', '[', 'x'] ++
          (List.replicate 1 '\\' ++ (List.replicate k ' ' ++ ['\\', ']'])) := by
      apply subM_id_of_none
      intro t ht
      rw [hL1] at ht
      rcases sfx_append ht with h | ⟨t₁, ht1, hne, rfl⟩
      · rcases sfx_append h with h2 | ⟨w, hw1, hwne, rfl⟩
        · rw [List.suffix_cons_iff] at h2
          rcases h2 with rfl | h2
          · decide
          rw [List.suffix_cons_iff] at h2
          rcases h2 with rfl | h2
          · decide
          · rw [List.suffix_nil] at h2; subst h2; rfl
        · rcases sfx_replicate hw1 with ⟨i, _, rfl⟩
          cases i with
          | zero => exact (hwne (by simp)).elim
          | succ i1 =>
            rw [List.replicate_succ, List.cons_append]
            exact try6b_none_head (by decide)
      · rw [List.suffix_cons_iff] at ht1
        rcases ht1 with rfl | ht1
        · exact try6b_none_two (by decide)
        rw [List.suffix_cons_iff] at ht1
        rcases ht1 with rfl | ht1
        · exact try6b_none_head (by decide)
        rw [List.suffix_cons_iff] at ht1
        rcases ht1 with rfl | ht1
        · exact try6b_none_head (by decide)
        rw [List.suffix_cons_iff] at ht1
        rcases ht1 with rfl | ht1
        · cases k with
          | zero => decide
          | succ t2 =>
            rw [List.replicate_succ, List.singleton_append, List.cons_append]
            exact try6b_none_two (by decide)
        · rw [List.suffix_nil] at ht1; exact absurd ht1 hne
    rw [h6b]
    rw [subM_id_of_none try6c _
      (fun t ht => try6c_none (fun hm => hrp (ht.subset hm)))]
    have hL2 : ['\\', '[', 'x'] ++
        (List.replicate 1 '\\' ++ (List.replicate k ' ' ++ ['\\', ']'])) =
        ['\\', '[', 'x'] ++ ('\\' :: (List.replicate k ' ' ++ ['\\', ']'])) := by
      simp
    have h6d : subM try6d (['\\', '[', 'x'] ++
        (List.replicate 1 '\\' ++ (List.replicate k ' ' ++ ['\\', ']']))) =
        ['\\', '[', 'x'] ++ [' ', '\\', ']'] := by
      rw [hL2, subM, List.length_append, subMAux_walk]
      · congr 1
        rw [List.length_cons, subMAux_cons_succ, try6d_fires_sp k]
        simp [subMAux_nil]
      · intro t₁ ht1 hne
        rw [List.suffix_cons_iff] at ht1
        rcases ht1 with rfl | ht1
        · exact try6d_one (by decide) (by decide)
        rw [List.suffix_cons_iff] at ht1
        rcases ht1 with rfl | ht1
        · exact try6d_none_head (by decide)
        rw [List.suffix_cons_iff] at ht1
        rcases ht1 with rfl | ht1
        · exact try6d_none_head (by decide)
        · rw [List.suffix_nil] at ht1; exact absurd ht1 hne
    rw [h6d]
    decide
  · -- n = m + 2: rule 6b fires once, then 6d collapses the remaining run
    have hLm : ['\\', '[', 'x'] ++
        (List.replicate (m + 2) '\\' ++ (List.replicate k ' ' ++ ['\\', ']'])) =
        (['\\', '[', 'x'] ++ List.replicate m '\\') ++
          ('\\' :: '\\' :: (List.replicate k ' ' ++ ['\\', ']'])) := by
      rw [List.replicate_add]
      simp
    have h6b : subM try6b (['\\', '[', 'x'] ++
        (List.replicate (m + 2) '\\' ++ (List.replicate k ' ' ++ ['\\', ']']))) =
        (['\\', '[', 'x'] ++ List.replicate m '\\') ++ [' ', '\\', ']'] := by
      rw [hLm, subM, List.length_append, subMAux_walk]
      · congr 1
        rw [List.length_cons, subMAux_cons_succ, try6b_fires k]
        simp [subMAux_nil]
      · intro t₁ ht1 hne
        rcases sfx_append ht1 with h | ⟨t₂, ht2, hne2, rfl⟩
        · rcases sfx_replicate h with ⟨i, _, rfl⟩
          cases i with
          | zero => exact (hne (by simp)).elim
          | succ i1 => exact try6b_none_midrun (i1 + 1) k (by omega)
        · rw [List.suffix_cons_iff] at ht2
          rcases ht2 with rfl | ht2
          · rw [List.cons_append, List.cons_append]
            exact try6b_none_two (by decide)
          rw [List.suffix_cons_iff] at ht2
          rcases ht2 with rfl | ht2
          · rw [List.cons_append]
            exact try6b_none_head (by decide)
          rw [List.suffix_cons_iff] at ht2
          rcases ht2 with rfl | ht2
          · rw [List.cons_append]
            exact try6b_none_head (by decide)
          · rw [List.suffix_nil] at ht2; exact absurd ht2 hne2
    rw [h6b]
    rw [subM_id_of_none try6c _
      (fun t ht => try6c_none (fun hm =>
        (not_mem_family2 (by decide) (by decide) (by decide) m) (ht.subset hm)))]
    cases m with
    | zero =>
      simp only [List.replicate_zero, List.append_nil]
      decide
    | succ j =>
      have h6d : subM try6d ((['\\', '[', 'x'] ++ List.replicate (j + 1) '\\') ++
          [' ', '\\', ']']) = ['\\', '[', 'x'] ++ [' ', '\\', ']'] := by
        rw [List.append_assoc, subM, List.length_append, subMAux_walk]
        · congr 1
          rw [List.replicate_succ, List.cons_append, List.length_cons,
            subMAux_cons_succ]
          rw [show try6d ('\\' :: (List.replicate j '\\' ++ [' ', '\\', ']'])) =
              some ([' ', '\\', ']'], []) from by
            rw [show '\\' :: (List.replicate j '\\' ++ [' ', '\\', ']']) =
                List.replicate (j + 1) '\\' ++ [' ', '\\', ']'] from by
              simp [List.replicate_succ]]
            exact try6d_fires_run (j + 1) (by omega)]
          simp [subMAux_nil]
        · intro t₁ ht1 hne
          rw [List.suffix_cons_iff] at ht1
          rcases ht1 with rfl | ht1
          · exact try6d_one (by decide) (by decide)
          rw [List.suffix_cons_iff] at ht1
          rcases ht1 with rfl | ht1
          · exact try6d_none_head (by decide)
          rw [List.suffix_cons_iff] at ht1
          rcases ht1 with rfl | ht1
          · exact try6d_none_head (by decide)
          · rw [List.suffix_nil] at ht1; exact absurd ht1 hne
      rw [h6d]
      decide

/-- C8: for every math span ending in a run of `n ≥ 1` trailing backslashes
(with `k ≥ 0` intervening whitespace characters) immediately before a
closing `\)` or `\]` delimiter, `fix_latex_math` collapses the run into a
single space before the delimiter; in particular the logged example
`\( ... \}\ \)` becomes `\( ... \} \)`. -/
theorem trailing_backslash_collapse :
    (∀ n k : Nat, 1 ≤ n →
      fix_latex_math (String.mk (['\\', '(', 'x'] ++
          (List.replicate n '\\' ++ (List.replicate k ' ' ++ ['\\', ')'])))) =
        String.mk ['\\', '(', 'x', ' ', '\\', ')'] ∧
      fix_latex_math (String.mk (['\\', '[', 'x'] ++
          (List.replicate n '\\' ++ (List.replicate k ' ' ++ ['\\', ']'])))) =
        String.mk ['\\', '[', 'x', ' ', '\\', ']']) ∧
    fix_latex_math "\\( X(s) = G_2(s)\\\x7bG_1(s)[R(s)-H(s)X(s)] + D(s)\\\x7d\\ \\)" =
      "\\( X(s) = G_2(s)\\\x7bG_1(s)[R(s)-H(s)X(s)] + D(s)\\\x7d \\)" :=
  ⟨fun n k hn => ⟨fix_round n k hn, fix_square n k hn⟩, by decide⟩

theorem trailing_backslash_collapse_witness :
    fix_latex_math (String.mk (['\\', '(', 'x'] ++
        (List.replicate 2 '\\' ++ (List.replicate 1 ' ' ++ ['\\', ')'])))) =
      String.mk ['\\', '(', 'x', ' ', '\\', ')'] ∧
    fix_latex_math (String.mk (['\\', '[', 'x'] ++
        (List.replicate 2 '\\' ++ (List.replicate 1 ' ' ++ ['\\', ']'])))) =
      String.mk ['\\', '[', 'x', ' ', '\\', ']'] :=
  trailing_backslash_collapse.1 2 1 (by decide)

/-- C7: the compiler does NOT always read the fully repaired text.  The
write-back guard compares `fix_latex_math`'s output against the already
`<br>`-normalised string, so when only the `<br>` normalisation changed the
content nothing is written: for disk content `a<br>b` the repaired text is
`a<br/>b`, yet pandoc reads `a<br>b` from disk. -/
theorem compiler_reads_unrepaired_br :
    (convert_markdown_to_epub ⟨false, false, false⟩ "orig" "mddir" "a<br>b").compilerInput
      = some "a<br>b" ∧
    repairText "a<br>b" = "a<br/>b" ∧
    ("a<br>b" : String) ≠ "a<br/>b" := by
  refine ⟨by decide, by decide, by decide⟩

end EpubMaker
